import Mathlib

/-!
Verification of the price-projection pipeline of `src/main.py`
(Rajan3208/farmo).

The core of the program (lines 107-131 of `main.py`) takes a price
series, converts each price to the target currency by multiplying with
an exchange rate, assigns to each row an integer day offset relative to
the earliest date, fits an ordinary-least-squares line over
(day offset, converted price), and extrapolates 180 consecutive
calendar days past the maximum observed date.  The historical rows and
the 180 predicted rows are concatenated, tagged `Historical` and
`Predicted` respectively.  If the loaded series is empty, an error
banner is shown and no chart is produced.

Dates are modelled as natural-number calendar day indices; prices and
the exchange rate are rationals, so the closed-form OLS fit is exact.
In ℚ division by zero yields 0, which coincides with the behaviour of
`sklearn.linear_model.LinearRegression` in the degenerate cases (a
single sample, or all samples at the same x): the minimum-norm
least-squares solution there has slope 0 and intercept equal to the
mean of y.
-/

/-- A row of the loaded data frame: a calendar date (as a day index)
and a price in the source currency. -/
structure PricePoint where
  date : ℕ
  price : ℚ
  deriving Repr, DecidableEq

/-- The `Type` tag attached to each row of `all_data` in `main.py`
line 131. -/
inductive RowKind where
  | Historical : RowKind
  | Predicted : RowKind
  deriving Repr, DecidableEq

/-- A row of the combined `all_data` frame: date, converted price and
its `Historical`/`Predicted` tag. -/
structure ProjPoint where
  date : ℕ
  price : ℚ
  kind : RowKind
  deriving Repr, DecidableEq

/-- Sum of a list of rationals. -/
def sumL (l : List ℚ) : ℚ := l.foldr (· + ·) 0

/-- The minimum of `df['Date']` (line 114, `df['Date'].min()`);
0 on the empty frame, which the pipeline never reaches. -/
def minDate : List PricePoint → ℕ
  | [] => 0
  | p :: ps => (ps.map PricePoint.date).foldl min p.date

/-- The maximum of `df['Date']` (line 123, `df['Date'].max()`). -/
def maxDate : List PricePoint → ℕ
  | [] => 0
  | p :: ps => (ps.map PricePoint.date).foldl max p.date

/-- The `Days` column (line 114): integer count of whole calendar days
between each row's date and the minimum date of the series. -/
def daysCol (s : List PricePoint) : List ℤ :=
  s.map (fun p => (p.date : ℤ) - (minDate s : ℤ))

/-- The `Price` column after conversion to INR (line 113). -/
def priceCol (s : List PricePoint) (rate : ℚ) : List ℚ :=
  s.map (fun p => p.price * rate)

/-- The `Days` column viewed as rationals, as fed to the regression. -/
def daysColQ (s : List PricePoint) : List ℚ :=
  (daysCol s).map (fun d => (d : ℚ))

/-- Slope of the ordinary-least-squares line fitted by
`LinearRegression().fit` (lines 117-118), in the closed
normal-equation form
`(n·Σxy − Σx·Σy) / (n·Σx² − (Σx)²)`.
When the denominator vanishes (one sample, or all x equal) the ℚ
convention `a / 0 = 0` gives slope 0, matching the minimum-norm
least-squares solution computed by scikit-learn. -/
def olsSlope (xs ys : List ℚ) : ℚ :=
  let n : ℚ := xs.length
  (n * sumL (List.zipWith (· * ·) xs ys) - sumL xs * sumL ys) /
    (n * sumL (xs.map fun x => x * x) - sumL xs * sumL xs)

/-- Intercept of the fitted line: `(Σy − slope·Σx) / n`. -/
def olsIntercept (xs ys : List ℚ) : ℚ :=
  (sumL ys - olsSlope xs ys * sumL xs) / (xs.length : ℚ)

/-- The forecast horizon: `future_days = 180` (line 121). -/
def future_days : ℕ := 180

/-- The maximum of the `Days` column (line 122, `df['Days'].max()`);
0 on the empty frame. -/
def lastDay (s : List PricePoint) : ℤ :=
  match daysCol s with
  | [] => 0
  | d :: ds => ds.foldl max d

/-- One predicted row (lines 123-125): the i-th future date is
`df['Date'].max() + 1 + i` and its price is the fitted line evaluated
at day offset `last_day + 1 + i`. -/
def predRow (s : List PricePoint) (rate : ℚ) (i : ℕ) : ProjPoint :=
  ⟨maxDate s + 1 + i,
   olsSlope (daysColQ s) (priceCol s rate) * ((lastDay s + 1 + i : ℤ) : ℚ) +
     olsIntercept (daysColQ s) (priceCol s rate),
   RowKind.Predicted⟩

/-- The combined `all_data` frame (lines 112-131): the converted
historical rows in their original order, tagged `Historical`, followed
by the 180 predicted rows, tagged `Predicted`. -/
def trendProject (s : List PricePoint) (rate : ℚ) : List ProjPoint :=
  s.map (fun p => ⟨p.date, p.price * rate, RowKind.Historical⟩) ++
    (List.range future_days).map (predRow s rate)

/-- Outcome of one run of the main column (lines 107-143): either the
computation halts with an error banner and no chart, or a chart of the
combined data is rendered. -/
inductive RunOutcome where
  | halted : String → RunOutcome
  | rendered : List ProjPoint → RunOutcome
  deriving Repr, DecidableEq

/-- Whether the run stopped at an error banner without a chart. -/
def RunOutcome.isHalted : RunOutcome → Bool
  | halted _ => true
  | rendered _ => false

/-- The guarded pipeline (lines 107-131): `if df.empty` an error is
reported and nothing else runs; otherwise the projection is computed
and charted. -/
def pipeline (s : List PricePoint) (rate : ℚ) : RunOutcome :=
  if s = [] then RunOutcome.halted "No data available"
  else RunOutcome.rendered (trendProject s rate)

/-- The fallback exchange rate of `get_usd_to_inr_rate` (line 46). -/
def fallbackRate : ℚ := 75

/-- Embedding of `get_usd_to_inr_rate` (lines 39-46).  The outcome of
the HTTP fetch and JSON field lookup is abstracted as
`none` (any failure: network error, malformed response, missing field)
or `some r` (the parsed rate).  The function returns the rate to use
together with a flag recording whether the non-fatal warning banner was
emitted. -/
def get_usd_to_inr_rate (fetch : Option ℚ) : ℚ × Bool :=
  match fetch with
  | some r => (r, false)
  | none => (fallbackRate, true)

/-- Dates of a series are strictly increasing. -/
def StrictDates (s : List PricePoint) : Prop :=
  List.Chain' (fun p q => p.date < q.date) s

instance (s : List PricePoint) : Decidable (StrictDates s) :=
  inferInstanceAs
    (Decidable (List.Chain' (fun p q : PricePoint => p.date < q.date) s))

/-- The three-point example series of the spec scenario:
`[(day0, 100), (day1, 102), (day2, 104)]`. -/
def scenarioSeries : List PricePoint := [⟨0, 100⟩, ⟨1, 102⟩, ⟨2, 104⟩]

/-- The historical block of `all_data` is the converted input series. -/
lemma trendProject_take (s : List PricePoint) (rate : ℚ) :
    (trendProject s rate).take s.length =
      s.map (fun p => ⟨p.date, p.price * rate, RowKind.Historical⟩) := by
  unfold trendProject
  exact List.take_left' (by simp)

/-- The predicted block of `all_data` is the 180 rows built from the
fitted line. -/
lemma trendProject_drop (s : List PricePoint) (rate : ℚ) :
    (trendProject s rate).drop s.length =
      (List.range future_days).map (predRow s rate) := by
  unfold trendProject
  exact List.drop_left' (by simp)

lemma foldlMin_le_init (l : List ℕ) (a : ℕ) : l.foldl min a ≤ a := by
  induction l generalizing a with
  | nil => simp
  | cons x xs ih =>
    simpa using (ih (min a x)).trans (min_le_left a x)

lemma foldlMin_le_of_mem {b : ℕ} (l : List ℕ) (a : ℕ) (h : b ∈ l) :
    l.foldl min a ≤ b := by
  induction l generalizing a with
  | nil => cases h
  | cons x xs ih =>
    rcases List.mem_cons.mp h with rfl | h'
    · simpa using (foldlMin_le_init xs (min a b)).trans (min_le_right a b)
    · simpa using ih (min a x) h'

lemma foldlMin_attained (l : List ℕ) (a : ℕ) :
    l.foldl min a = a ∨ l.foldl min a ∈ l := by
  induction l generalizing a with
  | nil => exact Or.inl rfl
  | cons x xs ih =>
    rcases ih (min a x) with h | h
    · rcases min_choice a x with h' | h'
      · exact Or.inl (by simpa [h'] using h)
      · exact Or.inr (by simp [List.foldl_cons]; left; rw [h, h'])
    · exact Or.inr (by simp [List.foldl_cons]; right; simpa using h)

/-- `df['Date'].min()` is a lower bound of all dates. -/
lemma minDate_le {s : List PricePoint} {p : PricePoint} (h : p ∈ s) :
    minDate s ≤ p.date := by
  match s, h with
  | q :: qs, h =>
    rcases List.mem_cons.mp h with rfl | h'
    · exact foldlMin_le_init _ _
    · exact foldlMin_le_of_mem _ _ (List.mem_map_of_mem PricePoint.date h')

/-- `df['Date'].min()` is attained by some row of the frame. -/
lemma minDate_mem {s : List PricePoint} (h : s ≠ []) :
    ∃ p ∈ s, p.date = minDate s := by
  match s, h with
  | q :: qs, _ =>
    rcases foldlMin_attained (qs.map PricePoint.date) q.date with h' | h'
    · exact ⟨q, List.mem_cons_self _ _, h'.symm⟩
    · obtain ⟨p, hp, hpd⟩ := List.mem_map.mp h'
      exact ⟨p, List.mem_cons_of_mem _ hp, by simpa [minDate] using hpd⟩

/-- C1: for every series of length at least 2 with strictly increasing
dates and every positive rate, the Historical block of `all_data` is
exactly the input series with every price multiplied by the rate: same
number of rows, same order, dates unchanged. -/
theorem historical_is_converted_input (s : List PricePoint) (rate : ℚ)
    (hlen : 2 ≤ s.length) (hdates : StrictDates s) (hrate : 0 < rate) :
    (trendProject s rate).take s.length =
        s.map (fun p => ⟨p.date, p.price * rate, RowKind.Historical⟩) ∧
      ((trendProject s rate).take s.length).length = s.length ∧
      ((trendProject s rate).take s.length).map ProjPoint.date =
        s.map PricePoint.date := by
  refine ⟨trendProject_take s rate, ?_, ?_⟩ <;>
    simp [trendProject_take s rate, List.map_map, Function.comp]

/-- C1 witness at the scenario input. -/
theorem historical_is_converted_input_witness :
    (trendProject scenarioSeries 80).take scenarioSeries.length =
      scenarioSeries.map
        (fun p => ⟨p.date, p.price * 80, RowKind.Historical⟩) :=
  (historical_is_converted_input scenarioSeries 80 (by decide)
    (by simp [StrictDates, scenarioSeries, List.chain'_cons]) (by norm_num)).1

/-- C2: for every valid input the Predicted block has exactly 180 rows,
its i-th date is `maxDate + 1 + i` (hence the dates are consecutive
calendar days), and its first date is one day past the maximum
historical date. -/
theorem predicted_shape (s : List PricePoint) (rate : ℚ)
    (hlen : 2 ≤ s.length) (hrate : 0 < rate) :
    ((trendProject s rate).drop s.length).length = 180 ∧
      (∀ i (hi : i < ((trendProject s rate).drop s.length).length),
        (((trendProject s rate).drop s.length).get ⟨i, hi⟩).date =
          maxDate s + 1 + i) ∧
      (∀ h0 : 0 < ((trendProject s rate).drop s.length).length,
        (((trendProject s rate).drop s.length).get ⟨0, h0⟩).date =
          maxDate s + 1) := by
  have e := trendProject_drop s rate
  refine ⟨by simp [e, future_days], ?_, ?_⟩
  · intro i hi
    rw [List.get_eq_getElem]
    simp only [e] at hi ⊢
    simp [List.getElem_map, predRow]
  · intro h0
    rw [List.get_eq_getElem]
    simp only [e] at h0 ⊢
    simp [List.getElem_map, predRow, future_days]

/-- C2 witness at the scenario input. -/
theorem predicted_shape_witness :
    ((trendProject scenarioSeries 80).drop scenarioSeries.length).length
      = 180 :=
  (predicted_shape scenarioSeries 80 (by decide) (by norm_num)).1

/-- C3: on the series `[(day0, 100), (day1, 102), (day2, 104)]` with
rate 80, the historical prices are `[8000, 8160, 8320]`, the line
fitted to the unconverted data has slope 2 and intercept 100, and the
first predicted row sits at day 3 with price 8480. -/
theorem scenario_c3 :
    (trendProject scenarioSeries 80).take 3 =
        [⟨0, 8000, RowKind.Historical⟩, ⟨1, 8160, RowKind.Historical⟩,
         ⟨2, 8320, RowKind.Historical⟩] ∧
      olsSlope (daysColQ scenarioSeries) (priceCol scenarioSeries 1) = 2 ∧
      olsIntercept (daysColQ scenarioSeries) (priceCol scenarioSeries 1)
          = 100 ∧
      predRow scenarioSeries 80 0 = ⟨3, 8480, RowKind.Predicted⟩ := by
  refine ⟨?_, ?_, ?_, ?_⟩ <;>
    simp [trendProject, scenarioSeries, daysColQ, daysCol, priceCol, olsSlope,
      olsIntercept, sumL, minDate, maxDate, lastDay, predRow, future_days,
      ProjPoint.mk.injEq] <;>
    norm_num

/-- C4 counterexample: a length-1 series is NOT rejected.  The only
guard in `main.py` is `if df.empty` (line 108); a single-row frame
passes it, the regression is fitted on one sample and a full chart of
1 + 180 rows is rendered. -/
theorem singleton_series_not_rejected :
    pipeline [⟨0, 100⟩] 80 =
        RunOutcome.rendered (trendProject [⟨0, 100⟩] 80) ∧
      (pipeline [⟨0, 100⟩] 80).isHalted = false ∧
      (trendProject [⟨0, 100⟩] 80).length = 181 := by
  refine ⟨?_, ?_, ?_⟩
  · unfold pipeline
    simp
  · unfold pipeline
    simp [RunOutcome.isHalted]
  · simp [trendProject, future_days]

/-- C4 amended: the computation halts with the no-data error exactly
when the series is empty; a length-1 series passes the only guard and
is charted. -/
theorem pipeline_halts_iff_empty (s : List PricePoint) (rate : ℚ) :
    (pipeline s rate).isHalted = true ↔ s = [] := by
  unfold pipeline
  split <;> simp_all [RunOutcome.isHalted]

/-- C5: an empty loaded series halts the computation with the error
banner; no chart outcome is produced, and the pipeline still returns a
value (the process does not crash). -/
theorem empty_series_halts (rate : ℚ) :
    pipeline [] rate = RunOutcome.halted "No data available" ∧
      ∀ out, pipeline [] rate ≠ RunOutcome.rendered out := by
  constructor
  · unfold pipeline
    simp
  · intro out
    unfold pipeline
    simp

/-- C6: every failure of the rate fetch (modelled as `none`, covering
network errors, malformed responses and missing fields) yields the
fixed fallback rate 75 together with the warning flag; a success yields
the fetched scalar with no warning; and the downstream pipeline run
with the fallback rate still renders for any nonempty series. -/
theorem rate_fallback_behavior :
    get_usd_to_inr_rate none = (fallbackRate, true) ∧ fallbackRate = 75 ∧
      (∀ r : ℚ, get_usd_to_inr_rate (some r) = (r, false)) ∧
      ∀ s : List PricePoint, s ≠ [] →
        (pipeline s (get_usd_to_inr_rate none).1).isHalted = false := by
  refine ⟨rfl, rfl, fun r => rfl, fun s hs => ?_⟩
  unfold pipeline
  simp [hs, RunOutcome.isHalted]

/-- C6 witness: the fallback path applied to the scenario series. -/
theorem rate_fallback_behavior_witness :
    (pipeline scenarioSeries (get_usd_to_inr_rate none).1).isHalted
      = false :=
  rate_fallback_behavior.2.2.2 scenarioSeries (by simp [scenarioSeries])

/-- C7: the `Days` column keeps one entry per row (duplicates stay
separate observations), each entry is the integer count of whole days
between that row's date and the minimum date, the minimum is a lower
bound of all dates, and it is attained — so the earliest row gets
offset 0. -/
theorem day_offsets_from_min (s : List PricePoint) (h : s ≠ []) :
    (daysCol s).length = s.length ∧
      (∀ i (hi : i < s.length) (hi2 : i < (daysCol s).length),
        (daysCol s).get ⟨i, hi2⟩ =
          ((s.get ⟨i, hi⟩).date : ℤ) - (minDate s : ℤ)) ∧
      (∀ p ∈ s, (minDate s : ℤ) ≤ (p.date : ℤ)) ∧
      ∃ p ∈ s, ((p.date : ℤ) - (minDate s : ℤ) = 0) := by
  refine ⟨by simp [daysCol], ?_, ?_, ?_⟩
  · intro i hi hi2
    simp [daysCol]
  · intro p hp
    exact_mod_cast minDate_le hp
  · obtain ⟨p, hp, hpd⟩ := minDate_mem h
    exact ⟨p, hp, by rw [hpd]; ring⟩

/-- C7 witness at the scenario input. -/
theorem day_offsets_from_min_witness :
    (daysCol scenarioSeries).length = scenarioSeries.length :=
  (day_offsets_from_min scenarioSeries (by simp [scenarioSeries])).1

/-- C8: the projection is a pure function of the series and the rate —
two invocations on equal inputs produce equal outputs, both for the
combined frame and for the whole guarded pipeline. -/
theorem projection_deterministic (s₁ s₂ : List PricePoint) (r₁ r₂ : ℚ)
    (hs : s₁ = s₂) (hr : r₁ = r₂) :
    trendProject s₁ r₁ = trendProject s₂ r₂ ∧
      pipeline s₁ r₁ = pipeline s₂ r₂ := by
  subst hs
  subst hr
  exact ⟨rfl, rfl⟩

/-- C8 witness: two runs on the scenario input coincide. -/
theorem projection_deterministic_witness :
    trendProject scenarioSeries 80 = trendProject scenarioSeries 80 ∧
      pipeline scenarioSeries 80 = pipeline scenarioSeries 80 :=
  projection_deterministic scenarioSeries scenarioSeries 80 80 rfl rfl

/-- C9: consecutive predicted prices always differ by the fitted slope,
independently of the position in the predicted block. -/
theorem predicted_on_a_line (s : List PricePoint) (rate : ℚ) (i : ℕ)
    (h1 : i < ((trendProject s rate).drop s.length).length)
    (h2 : i + 1 < ((trendProject s rate).drop s.length).length) :
    (((trendProject s rate).drop s.length).get ⟨i + 1, h2⟩).price -
        (((trendProject s rate).drop s.length).get ⟨i, h1⟩).price =
      olsSlope (daysColQ s) (priceCol s rate) := by
  have e := trendProject_drop s rate
  rw [List.get_eq_getElem, List.get_eq_getElem]
  simp only [e] at h1 h2 ⊢
  simp [List.getElem_map, List.getElem_range, predRow]
  ring

/-- C9 witness: the first two predicted prices of the scenario run. -/
theorem predicted_on_a_line_witness :
    (((trendProject scenarioSeries 80).drop scenarioSeries.length).get
          ⟨1, by simp [trendProject_drop, future_days]⟩).price -
        (((trendProject scenarioSeries 80).drop scenarioSeries.length).get
          ⟨0, by simp [trendProject_drop, future_days]⟩).price =
      olsSlope (daysColQ scenarioSeries) (priceCol scenarioSeries 80) :=
  predicted_on_a_line scenarioSeries 80 0
    (by simp [trendProject_drop, future_days])
    (by simp [trendProject_drop, future_days])

lemma sumL_cons (x : ℚ) (l : List ℚ) : sumL (x :: l) = x + sumL l := rfl

lemma sumL_map_smul (c : ℚ) (l : List ℚ) :
    sumL (l.map (fun y => c * y)) = c * sumL l := by
  induction l with
  | nil => simp [sumL]
  | cons x xs ih =>
    rw [List.map_cons, sumL_cons, sumL_cons, ih]
    ring

lemma zipWith_mul_map_smul (c : ℚ) (xs ys : List ℚ) :
    List.zipWith (· * ·) xs (ys.map (fun y => c * y)) =
      (List.zipWith (· * ·) xs ys).map (fun y => c * y) := by
  induction xs generalizing ys with
  | nil => simp
  | cons x xs ih =>
    cases ys with
    | nil => simp
    | cons y ys =>
      simp [ih]
      ring

/-- The OLS slope is linear in the y values: scaling every price by a
constant scales the slope by that constant. -/
lemma olsSlope_smul (c : ℚ) (xs ys : List ℚ) :
    olsSlope xs (ys.map (fun y => c * y)) = c * olsSlope xs ys := by
  unfold olsSlope
  rw [zipWith_mul_map_smul, sumL_map_smul, sumL_map_smul, ← mul_div_assoc]
  ring

/-- The OLS intercept is linear in the y values as well. -/
lemma olsIntercept_smul (c : ℚ) (xs ys : List ℚ) :
    olsIntercept xs (ys.map (fun y => c * y)) = c * olsIntercept xs ys := by
  unfold olsIntercept
  rw [sumL_map_smul, olsSlope_smul, ← mul_div_assoc]
  ring

/-- Converting with rate `r` is the same as converting with rate 1 and
then scaling every converted price by `r`. -/
lemma priceCol_smul (s : List PricePoint) (rate : ℚ) :
    priceCol s rate = (priceCol s 1).map (fun y => rate * y) := by
  unfold priceCol
  rw [List.map_map]
  apply List.map_congr_left
  intro p _
  simp [Function.comp]
  ring

/-- C10: the whole projection is homogeneous in the conversion rate —
every price of the run with rate `r`, historical or predicted, is `r`
times the corresponding price of the run with rate 1, because the
conversion happens before an OLS fit that is linear in y. -/
theorem rate_homogeneous (s : List PricePoint) (rate : ℚ) :
    (trendProject s rate).map ProjPoint.price =
      ((trendProject s 1).map ProjPoint.price).map (fun q => rate * q) := by
  unfold trendProject
  simp only [List.map_append, List.map_map]
  congr 1
  · apply List.map_congr_left
    intro p _
    simp [Function.comp]
    ring
  · apply List.map_congr_left
    intro i _
    simp only [Function.comp, predRow]
    rw [priceCol_smul s rate, olsSlope_smul, olsIntercept_smul]
    ring
